import Mathlib

/-!
Verification of the CourseSys client-side data-synchronization layer
("SyncStore", `src/supabaseClient.ts`) against its specification.

The store holds an in-memory mirror of three remote tables (people, courses,
sessions), applies optimistic local mutations, and derives per-course
aggregate statistics.  We embed the local-state transitions as pure Lean
functions over explicit state records; the remote calls each operation
issues are modelled as a trace of `RemoteOp` values, and the outcome of a
remote call as a `CallOutcome` (a supabase call resolves normally, resolves
carrying an error result object, or rejects).  JavaScript numbers are
modelled as exact rationals; a missing or non-numeric `durationHours` on a
session is `Option.none`, since `Number(x) || 0` sends both `undefined` and
`NaN` to `0`.
-/

namespace CourseSys

/- `Rat.add` and friends are `@[irreducible]` in Batteries; concrete rational
evaluation by `decide` needs them reducible again. -/
attribute [local semireducible] Rat.add Rat.mul Rat.inv Rat.sub

/-- `parseFloat(x.toFixed(2))` on the exact value: round to two decimal
places, halves rounding up (`⌊100q + 1/2⌋ / 100`, written with `Int.fdiv` so
that the kernel can evaluate it). -/
def round2 (q : ℚ) : ℚ :=
  mkRat ((q * 100 + 1/2).num.fdiv ((q * 100 + 1/2).den : ℤ)) 100

/-- A person row; `ptype` embeds the `type` column, `"Teacher"` or `"TA"`.
`name` stands in for the remaining profile fields. -/
structure Person where
  id : String
  ptype : String
  name : String
deriving DecidableEq

/-- A course row together with its derived statistics. -/
structure Course where
  id : String
  name : String
  sessionCount : Nat
  totalHours : ℚ
deriving DecidableEq

/-- A session row.  `durationHours = none` models a missing or non-numeric
value (`Number` of it is `NaN`). -/
structure Session where
  id : String
  courseId : String
  durationHours : Option ℚ
  sequence : Option ℚ
deriving DecidableEq

/-- `Number(s.durationHours) || 0`: a missing or non-numeric duration counts
as 0. -/
def numOr0 : Option ℚ → ℚ := fun v => v.getD 0

/-- `sessions.reduce((sum, s) => sum + (Number(s.durationHours) || 0), 0)`. -/
def sumDur (l : List Session) : ℚ :=
  l.foldl (fun acc s => acc + numOr0 s.durationHours) 0

/-- The local in-memory state of the store. -/
structure AppState where
  teachers : List Person
  assistants : List Person
  courses : List Course
  sessions : List Session
deriving DecidableEq

/-- `recalculateCourseStats(courses, sessions, courseId)`: every course other
than `courseId` is kept as is; the matching course's `sessionCount` and
`totalHours` are recomputed from the sessions referencing it. -/
def recalculateCourseStats (courses : List Course) (sessions : List Session)
    (courseId : String) : List Course :=
  courses.map fun c =>
    if c.id ≠ courseId then c
    else
      let courseSessions := sessions.filter (fun s => s.courseId = courseId)
      { c with
        sessionCount := courseSessions.length
        totalHours := round2 (sumDur courseSessions) }

/-- `updatePerson(p)`: the collection is chosen by `p.type`, and the record
with `p.id` in it is replaced by `p`. -/
def updatePerson (st : AppState) (p : Person) : AppState :=
  if p.ptype = "Teacher" then
    { st with teachers := st.teachers.map (fun t => if t.id = p.id then p else t) }
  else
    { st with assistants := st.assistants.map (fun a => if a.id = p.id then p else a) }

/-- `deletePerson(id)`: the id is filtered out of both person collections. -/
def deletePerson (st : AppState) (pid : String) : AppState :=
  { st with
    teachers := st.teachers.filter (fun t => t.id ≠ pid)
    assistants := st.assistants.filter (fun a => a.id ≠ pid) }

/-- `addSession(s)`: appends the session and recomputes the stats of its
course. -/
def addSession (st : AppState) (s : Session) : AppState :=
  let newSessions := st.sessions ++ [s]
  { st with
    sessions := newSessions
    courses := recalculateCourseStats st.courses newSessions s.courseId }

/-- `updateSession(s)`: replaces the session with `s.id`, recomputes the
stats of `s.courseId`, and — when the stored session's `courseId` differed —
also of the previous course. -/
def updateSession (st : AppState) (s : Session) : AppState :=
  let oldSession := st.sessions.find? (fun x => x.id = s.id)
  let newSessions := st.sessions.map (fun x => if x.id = s.id then s else x)
  let courses1 := recalculateCourseStats st.courses newSessions s.courseId
  let courses2 :=
    match oldSession with
    | some old =>
        if old.courseId ≠ s.courseId then
          recalculateCourseStats courses1 newSessions old.courseId
        else courses1
    | none => courses1
  { st with sessions := newSessions, courses := courses2 }

/-- `deleteSession(id)`: filters the session out and recomputes the stats of
the course that the (first) session with this id referenced. -/
def deleteSession (st : AppState) (sid : String) : AppState :=
  let sessionToDelete := st.sessions.find? (fun s => s.id = sid)
  let newSessions := st.sessions.filter (fun x => x.id ≠ sid)
  let newCourses :=
    match sessionToDelete with
    | some victim => recalculateCourseStats st.courses newSessions victim.courseId
    | none => st.courses
  { st with sessions := newSessions, courses := newCourses }

/-- A course's stored statistics agree with the given session collection. -/
def consistentFor (c : Course) (ss : List Session) : Prop :=
  c.sessionCount = (ss.filter (fun s => s.courseId = c.id)).length ∧
  c.totalHours = round2 (sumDur (ss.filter (fun s => s.courseId = c.id)))

instance (c : Course) (ss : List Session) : Decidable (consistentFor c ss) :=
  decidable_of_iff
    (c.sessionCount = (ss.filter (fun s => s.courseId = c.id)).length ∧
     c.totalHours = round2 (sumDur (ss.filter (fun s => s.courseId = c.id))))
    Iff.rfl

/-- Every course's stored statistics agree with the state's sessions. -/
def statsConsistent (st : AppState) : Prop :=
  ∀ c ∈ st.courses, consistentFor c st.sessions

instance (st : AppState) : Decidable (statsConsistent st) :=
  decidable_of_iff (∀ c ∈ st.courses, consistentFor c st.sessions) Iff.rfl

/-- The ids of the state's sessions, in order. -/
def sessionIds (st : AppState) : List String := st.sessions.map (fun s => s.id)

/-- One session mutation of the store's public surface. -/
inductive SessionOp where
  | add (s : Session)
  | update (s : Session)
  | del (sid : String)
deriving DecidableEq

/-- The local state transition of a session mutation. -/
def applyOp (st : AppState) : SessionOp → AppState
  | .add s => addSession st s
  | .update s => updateSession st s
  | .del sid => deleteSession st sid

/-- An operation is valid when an added session carries a fresh id (ids are
caller-generated unique identifiers). -/
def opValid (st : AppState) : SessionOp → Prop
  | .add s => s.id ∉ sessionIds st
  | .update _ => True
  | .del _ => True

instance (st : AppState) (op : SessionOp) : Decidable (opValid st op) :=
  match op with
  | .add s => inferInstanceAs (Decidable (s.id ∉ sessionIds st))
  | .update _ => inferInstanceAs (Decidable True)
  | .del _ => inferInstanceAs (Decidable True)

/-- Every operation of the sequence is valid at the state it is applied to. -/
def validSeq : AppState → List SessionOp → Prop
  | _, [] => True
  | st, op :: rest => opValid st op ∧ validSeq (applyOp st op) rest

instance instDecValidSeq : (st : AppState) → (ops : List SessionOp) →
    Decidable (validSeq st ops)
  | _, [] => isTrue trivial
  | st, op :: rest =>
      haveI := instDecValidSeq (applyOp st op) rest
      inferInstanceAs (Decidable (_ ∧ _))

/-- The course statistics are consistent after each operation of the
sequence. -/
def consistentAfterEach : AppState → List SessionOp → Prop
  | _, [] => True
  | st, op :: rest =>
      statsConsistent (applyOp st op) ∧ consistentAfterEach (applyOp st op) rest

instance instDecConsistentAfterEach : (st : AppState) → (ops : List SessionOp) →
    Decidable (consistentAfterEach st ops)
  | _, [] => isTrue trivial
  | st, op :: rest =>
      haveI := instDecConsistentAfterEach (applyOp st op) rest
      inferInstanceAs (Decidable (_ ∧ _))

/-! ### The bulk importer -/

/-- A loosely-typed id-list field of an input record: absent, a scalar
string, or an array of strings. -/
inductive JVal where
  | absent
  | str (s : String)
  | arr (l : List String)
deriving DecidableEq

/-- A loosely-typed numeric field of an input record: absent, a number, or a
truthy non-numeric value (`Number` of it is `NaN`). -/
inductive NVal where
  | absent
  | num (q : ℚ)
  | nonNum
deriving DecidableEq

/-- `Array.isArray(x) ? x : (x ? [x] : [])`: an array is kept, a truthy
scalar is wrapped, anything falsy (absent, or the empty string) becomes
the empty array. -/
def coerceIds : JVal → List String
  | .arr l => l
  | .str s => if s.isEmpty then [] else [s]
  | .absent => []

/-- `x ? Number(x) : 0`: a falsy value (absent, or the number 0) becomes 0; a
truthy number is kept; a truthy non-numeric value becomes `NaN` (`nonNum`). -/
def numericize : NVal → NVal
  | .absent => .num 0
  | .num q => .num q
  | .nonNum => .nonNum

/-- `Number(x) || 0` on a stored numeric field. -/
def nvalOr0 : NVal → ℚ
  | .num q => q
  | _ => 0

/-- An input record of `importData`, before normalization.  `name` and
`courseId` stand in for the passthrough fields. -/
structure RawRecord where
  id : Option String
  name : String
  courseId : String
  teacherIds : JVal
  assistantIds : JVal
  sessionCount : NVal
  totalHours : NVal
  sequence : NVal
  durationHours : NVal
deriving DecidableEq

/-- A record as stored after normalization; `NVal.absent`/`JVal.absent` mark
a field deleted/never set. -/
structure NormRecord where
  id : String
  name : String
  courseId : String
  teacherIds : JVal
  assistantIds : JVal
  sessionCount : NVal
  totalHours : NVal
  sequence : NVal
  durationHours : NVal
deriving DecidableEq

/-- The four import kinds of `importData`. -/
inductive ImportKind where
  | teachers
  | assistants
  | courses
  | sessions
deriving DecidableEq

/-- The two import modes of `importData`. -/
inductive ImportMode where
  | append
  | replace
deriving DecidableEq

/-- The per-record normalization of `importData`: generated id for a falsy
one; id-list coercion for courses/sessions; schema-field stripping for
people; numeric coercion for sessions; zeroed statistics for courses. -/
def normalizeRecord (kind : ImportKind) (genId : String) (item : RawRecord) :
    NormRecord :=
  let newId := match item.id with
    | some s => if s.isEmpty then genId else s
    | none => genId
  let base : NormRecord :=
    { id := newId, name := item.name, courseId := item.courseId
      teacherIds := item.teacherIds, assistantIds := item.assistantIds
      sessionCount := item.sessionCount, totalHours := item.totalHours
      sequence := item.sequence, durationHours := item.durationHours }
  let step1 :=
    if kind = .courses ∨ kind = .sessions then
      { base with
        teacherIds := .arr (coerceIds item.teacherIds)
        assistantIds := .arr (coerceIds item.assistantIds) }
    else
      { base with
        teacherIds := .absent, assistantIds := .absent
        sessionCount := .absent, totalHours := .absent
        sequence := .absent, durationHours := .absent }
  let step2 :=
    if kind = .sessions then
      { step1 with
        sequence := numericize item.sequence
        durationHours := numericize item.durationHours }
    else if kind ≠ .courses then
      { step1 with sequence := .absent, durationHours := .absent }
    else step1
  if kind = .courses then
    { step2 with sessionCount := .num 0, totalHours := .num 0 }
  else step2

/-- `data.map(item => ...)` with one generated id per index (the code calls
`crypto.randomUUID()` per record; `genIds i` is the id the `i`-th call would
return). -/
def processData (kind : ImportKind) (genIds : Nat → String) :
    Nat → List RawRecord → List NormRecord
  | _, [] => []
  | i, r :: rest => normalizeRecord kind (genIds i) r :: processData kind genIds (i + 1) rest

/-- The remote table an import kind writes to. -/
def tableName : ImportKind → String
  | .teachers => "people"
  | .assistants => "people"
  | .courses => "courses"
  | .sessions => "sessions"

/-- The local state as the importer sees it: four collections of loosely
typed records. -/
structure IState where
  teachers : List NormRecord
  assistants : List NormRecord
  courses : List NormRecord
  sessions : List NormRecord
deriving DecidableEq

/-- The importer's full recompute after a sessions import: every course's
statistics are rebuilt from the new session collection. -/
def importRecompute (courses sessions : List NormRecord) : List NormRecord :=
  courses.map fun c =>
    let cSessions := sessions.filter (fun s => s.courseId = c.id)
    { c with
      sessionCount := .num cSessions.length
      totalHours := .num (round2 (cSessions.foldl (fun acc s => acc + nvalOr0 s.durationHours) 0)) }

/-- The local (optimistic) apply of `importData`: replace overwrites the
target collection, append concatenates; a sessions import then recomputes
every course's statistics. -/
def importApply (kind : ImportKind) (mode : ImportMode)
    (processed : List NormRecord) (st : IState) : IState :=
  let st1 :=
    match kind with
    | .teachers =>
        { st with teachers := match mode with
            | .replace => processed
            | .append => st.teachers ++ processed }
    | .assistants =>
        { st with assistants := match mode with
            | .replace => processed
            | .append => st.assistants ++ processed }
    | .courses =>
        { st with courses := match mode with
            | .replace => processed
            | .append => st.courses ++ processed }
    | .sessions =>
        { st with sessions := match mode with
            | .replace => processed
            | .append => st.sessions ++ processed }
  if kind = .sessions then
    { st1 with courses := importRecompute st1.courses st1.sessions }
  else st1

/-- A remote call issued by the store, as it appears on the wire. -/
inductive RemoteOp where
  | deleteSessionsByCourse (courseId : String)
  | deleteCourseById (id : String)
  | deletePeopleByType (ptype : String)
  | deleteAllRows (table : String)
  | insertRows (table : String) (rows : List NormRecord)
deriving DecidableEq

/-- `deleteCourse(id)`: locally drops the course and every session whose
`courseId` matches; remotely deletes the session rows first, the course row
second. -/
def deleteCourse (st : AppState) (cid : String) : AppState × List RemoteOp :=
  ({ st with
      courses := st.courses.filter (fun x => x.id ≠ cid)
      sessions := st.sessions.filter (fun s => s.courseId ≠ cid) },
   [RemoteOp.deleteSessionsByCourse cid, RemoteOp.deleteCourseById cid])

/-- How an awaited supabase call comes back: resolved without error,
resolved with an error result object, or rejected (thrown). -/
inductive CallOutcome where
  | ok
  | errResult (msg : String)
  | reject (msg : String)
deriving DecidableEq

/-- A call outcome other than a clean `ok`. -/
def CallOutcome.failed : CallOutcome → Bool
  | .ok => false
  | _ => true

/-- The outcomes of the remote calls an import will make. -/
structure RemoteEnv where
  deleteOutcome : CallOutcome
  insertOutcome : CallOutcome
deriving DecidableEq

/-- `importData(type, data, mode)`: normalizes the records, applies them to
the local state, then best-effort syncs to the remote store inside a
try/catch.  Returns the new local state, the trace of remote calls actually
issued, and the message of the deferred `alert` the catch schedules (if
any).  The replace-mode delete's result object is discarded (`await`
without an error check), so only a *rejected* delete reaches the catch; the
insert's error result is re-thrown (`if (error) throw error`). -/
def importData (kind : ImportKind) (mode : ImportMode) (data : List RawRecord)
    (genIds : Nat → String) (st : IState) (env : RemoteEnv) :
    IState × List RemoteOp × Option String :=
  let processed := processData kind genIds 0 data
  let newState := importApply kind mode processed st
  let table := tableName kind
  let deleteOps : List RemoteOp :=
    match mode with
    | .replace =>
        if table = "people" then
          [RemoteOp.deletePeopleByType (if kind = .teachers then "Teacher" else "TA")]
        else [RemoteOp.deleteAllRows table]
    | .append => []
  match mode, env.deleteOutcome with
  | .replace, .reject m => (newState, deleteOps, some m)
  | _, _ =>
      let insOp := RemoteOp.insertRows table processed
      match env.insertOutcome with
      | .ok => (newState, deleteOps ++ [insOp], none)
      | .errResult m => (newState, deleteOps ++ [insOp], some m)
      | .reject m => (newState, deleteOps ++ [insOp], some m)

/-! ### The loader -/

/-- The loader's recompute: every fetched course's statistics are rebuilt
from the fetched sessions, ignoring stored values. -/
def loadCourses (coursesRaw : List Course) (sessions : List Session) : List Course :=
  coursesRaw.map fun c =>
    let cSessions := sessions.filter (fun s => s.courseId = c.id)
    { c with
      sessionCount := cSessions.length
      totalHours := round2 (sumDur cSessions) }

/-- An observable step of the initial `fetchData`. -/
inductive LoadEvent where
  | setLoading (b : Bool)
  | warn (table : String)
  | logError
  | publish (teachers assistants : List Person) (courses : List Course)
      (sessions : List Session)
deriving DecidableEq

/-- The event trace of the initial load.  The argument is `none` when the
awaited parallel fetch itself threw (the catch path); otherwise it carries
the three read results, each `none` when that read failed (its `data` is
null and an `error` is set).  A failed read degrades to the empty list; a
warning is emitted per failed read; the loading flag is set `true` first
and `false` last (`finally`). -/
def fetchData
    (res : Option (Option (List Person) × Option (List Course) × Option (List Session))) :
    List LoadEvent :=
  LoadEvent.setLoading true ::
    (match res with
     | none => [LoadEvent.logError]
     | some (pr, cr, sr) =>
        let people := pr.getD []
        let sessions := sr.getD []
        let courses := loadCourses (cr.getD []) sessions
        LoadEvent.publish (people.filter (fun p => p.ptype = "Teacher"))
            (people.filter (fun p => p.ptype = "TA")) courses sessions ::
          ((if pr.isNone then [LoadEvent.warn "people"] else []) ++
           (if cr.isNone then [LoadEvent.warn "courses"] else []) ++
           (if sr.isNone then [LoadEvent.warn "sessions"] else []))) ++
    [LoadEvent.setLoading false]

/-! ### Shared lemmas -/

/-- Elements of `recalculateCourseStats`: the target course is rebuilt
consistently with `ss`; any other course is passed through unchanged. -/
theorem mem_recalc_cases {courses : List Course} {ss : List Session} {cid : String}
    {c : Course} (h : c ∈ recalculateCourseStats courses ss cid) :
    (c.id = cid ∧ consistentFor c ss) ∨ (c.id ≠ cid ∧ c ∈ courses) := by
  rw [recalculateCourseStats] at h
  obtain ⟨a, ha, rfl⟩ := List.mem_map.mp h
  by_cases hid : a.id = cid
  · left
    rw [if_neg (not_not_intro hid)]
    exact ⟨hid, by constructor <;> simp [consistentFor, hid]⟩
  · right
    rw [if_pos hid]
    exact ⟨hid, ha⟩

/-- Two session collections with the same sessions for a course give the
same verdict on that course's statistics. -/
theorem consistentFor_congr {c : Course} {ss₁ ss₂ : List Session}
    (h : ss₁.filter (fun s => s.courseId = c.id) = ss₂.filter (fun s => s.courseId = c.id)) :
    consistentFor c ss₁ ↔ consistentFor c ss₂ := by
  unfold consistentFor
  rw [h]

/-- Replacing only elements a filter rejects, by elements it also rejects,
leaves the filter unchanged. -/
theorem filter_map_eq_filter {l : List Session} {g : Session → Session}
    {p : Session → Bool}
    (h : ∀ x ∈ l, (p x = true → g x = x) ∧ (p x = false → p (g x) = false)) :
    (l.map g).filter p = l.filter p := by
  induction l with
  | nil => rfl
  | cons x xs ih =>
      have hx := h x (List.mem_cons_self x xs)
      have hxs := fun y hy => h y (List.mem_cons_of_mem x hy)
      cases hp : p x with
      | true => simp [List.filter_cons, hx.1 hp, hp, ih hxs]
      | false => simp [List.filter_cons, hp, hx.2 hp, ih hxs]

/-- Removing only elements a filter rejects leaves the filter unchanged. -/
theorem filter_filter_eq_filter {l : List Session} {p q : Session → Bool}
    (h : ∀ x ∈ l, p x = true → q x = true) :
    (l.filter q).filter p = l.filter p := by
  rw [List.filter_filter]
  exact List.filter_congr fun x hx => by
    cases hp : p x
    · simp
    · simp [h x hx hp]

/-! ### Claim theorems -/

/-- C2: `deleteCourse(id)` removes from the local state the course with that
id and exactly the sessions whose `courseId` equals it; every remaining
course record (statistics included) and both person collections are
unchanged; and the remote delete against the sessions table is issued
before the remote delete of the course row. -/
theorem deleteCourse_spec (st : AppState) (cid : String) :
    (deleteCourse st cid).1.courses = st.courses.filter (fun c => c.id ≠ cid) ∧
    (deleteCourse st cid).1.sessions = st.sessions.filter (fun s => s.courseId ≠ cid) ∧
    (∀ c, c ∈ (deleteCourse st cid).1.courses ↔ c ∈ st.courses ∧ c.id ≠ cid) ∧
    (∀ s, s ∈ (deleteCourse st cid).1.sessions ↔ s ∈ st.sessions ∧ s.courseId ≠ cid) ∧
    (deleteCourse st cid).1.teachers = st.teachers ∧
    (deleteCourse st cid).1.assistants = st.assistants ∧
    (deleteCourse st cid).2
        = [RemoteOp.deleteSessionsByCourse cid, RemoteOp.deleteCourseById cid] := by
  refine ⟨rfl, rfl, ?_, ?_, rfl, rfl, rfl⟩ <;>
    intro x <;> simp [deleteCourse, List.mem_filter]

/-- C10: `deletePerson(id)` removes any record with that id from both the
teachers and the assistants collections (no subtype is consulted), keeps
every other record of both, and leaves courses and sessions untouched. -/
theorem deletePerson_spec (st : AppState) (pid : String) :
    (deletePerson st pid).teachers = st.teachers.filter (fun t => t.id ≠ pid) ∧
    (deletePerson st pid).assistants = st.assistants.filter (fun a => a.id ≠ pid) ∧
    (∀ t ∈ (deletePerson st pid).teachers, t.id ≠ pid) ∧
    (∀ a ∈ (deletePerson st pid).assistants, a.id ≠ pid) ∧
    (∀ t ∈ st.teachers, t.id ≠ pid → t ∈ (deletePerson st pid).teachers) ∧
    (∀ a ∈ st.assistants, a.id ≠ pid → a ∈ (deletePerson st pid).assistants) ∧
    (deletePerson st pid).courses = st.courses ∧
    (deletePerson st pid).sessions = st.sessions := by
  refine ⟨rfl, rfl, ?_, ?_, ?_, ?_, rfl, rfl⟩ <;>
    intro x hx <;> simp [deletePerson, List.mem_filter] at hx ⊢ <;> tauto

/-- C9: under the store's partition invariant (a record found under an id
carries the subtype of its collection, and a person's subtype is immutable),
`updatePerson(p)` replaces the record with `p.id` in whichever collection
holds it and leaves the other collection unchanged. -/
theorem updatePerson_spec (st : AppState) (p : Person)
    (ht : ∀ t ∈ st.teachers, t.id = p.id → p.ptype = "Teacher")
    (ha : ∀ a ∈ st.assistants, a.id = p.id → p.ptype ≠ "Teacher") :
    ((∃ t ∈ st.teachers, t.id = p.id) →
      (updatePerson st p).teachers
          = st.teachers.map (fun t => if t.id = p.id then p else t) ∧
      (updatePerson st p).assistants = st.assistants) ∧
    ((∃ a ∈ st.assistants, a.id = p.id) →
      (updatePerson st p).assistants
          = st.assistants.map (fun a => if a.id = p.id then p else a) ∧
      (updatePerson st p).teachers = st.teachers) := by
  constructor
  · rintro ⟨t, htm, hid⟩
    have hp := ht t htm hid
    simp [updatePerson, hp]
  · rintro ⟨a, ham, hid⟩
    have hp := ha a ham hid
    simp [updatePerson, hp]

/-- Witness for C9: a two-person state in which the teacher with id `p1` is
replaced and the assistants collection stays untouched. -/
theorem updatePerson_spec_witness :
    (updatePerson ⟨[⟨"p1", "Teacher", "Ann"⟩], [⟨"p2", "TA", "Bo"⟩], [], []⟩
        ⟨"p1", "Teacher", "Anna"⟩).teachers = [⟨"p1", "Teacher", "Anna"⟩] ∧
    (updatePerson ⟨[⟨"p1", "Teacher", "Ann"⟩], [⟨"p2", "TA", "Bo"⟩], [], []⟩
        ⟨"p1", "Teacher", "Anna"⟩).assistants = [⟨"p2", "TA", "Bo"⟩] :=
  have h := updatePerson_spec ⟨[⟨"p1", "Teacher", "Ann"⟩], [⟨"p2", "TA", "Bo"⟩], [], []⟩
      ⟨"p1", "Teacher", "Anna"⟩ (by decide) (by decide)
  have h1 := h.1 ⟨⟨"p1", "Teacher", "Ann"⟩, by decide, rfl⟩
  ⟨by rw [h1.1]; rfl, h1.2⟩

/-- With unique session ids, replacing the session with `s.id` cannot change
the sessions of a course other than the old and the new one. -/
theorem update_filter_frame {st : AppState} {s old : Session} {cid : String}
    (hids : (sessionIds st).Nodup)
    (hfind : st.sessions.find? (fun x => x.id = s.id) = some old)
    (hold : old.courseId ≠ cid) (hs : s.courseId ≠ cid) :
    (st.sessions.map fun x => if x.id = s.id then s else x).filter
        (fun x => x.courseId = cid)
      = st.sessions.filter (fun x => x.courseId = cid) := by
  have hmem := List.mem_of_find?_eq_some hfind
  have holdid : old.id = s.id := by simpa using List.find?_some hfind
  apply filter_map_eq_filter
  intro x hx
  constructor
  · intro hpx
    by_cases hxid : x.id = s.id
    · have hxold : x = old :=
        List.inj_on_of_nodup_map hids hx hmem (by rw [hxid, holdid])
      exact absurd (by rw [← hxold]; simpa using hpx) hold
    · simp [hxid]
  · intro hpx
    by_cases hxid : x.id = s.id
    · simp [hxid, hs]
    · simpa [hxid] using hpx

/-- With unique session ids, deleting the session with id `sid` cannot
change the sessions of a course other than the deleted session's. -/
theorem delete_filter_frame {st : AppState} {sid : String} {victim : Session}
    {cid : String} (hids : (sessionIds st).Nodup)
    (hfind : st.sessions.find? (fun x => x.id = sid) = some victim)
    (hvic : victim.courseId ≠ cid) :
    (st.sessions.filter fun x => x.id ≠ sid).filter (fun x => x.courseId = cid)
      = st.sessions.filter (fun x => x.courseId = cid) := by
  have hmem := List.mem_of_find?_eq_some hfind
  have hvid : victim.id = sid := by simpa using List.find?_some hfind
  apply filter_filter_eq_filter
  intro x hx hpx
  by_cases hxid : x.id = sid
  · have hxv : x = victim :=
      List.inj_on_of_nodup_map hids hx hmem (by rw [hxid, hvid])
    exact absurd (by rw [← hxv]; simpa using hpx) hvic
  · simpa using hxid

/-- `addSession` keeps every course's statistics consistent. -/
theorem addSession_preserves (st : AppState) (s : Session)
    (hcons : statsConsistent st) : statsConsistent (addSession st s) := by
  intro c hc
  have hc' : c ∈ recalculateCourseStats st.courses (st.sessions ++ [s]) s.courseId := hc
  show consistentFor c (st.sessions ++ [s])
  rcases mem_recalc_cases hc' with ⟨_, hcf⟩ | ⟨hid, hmem⟩
  · exact hcf
  · have hfil : (st.sessions ++ [s]).filter (fun x => x.courseId = c.id)
        = st.sessions.filter (fun x => x.courseId = c.id) := by
      have hne : ¬ s.courseId = c.id := fun h => hid h.symm
      rw [List.filter_append]
      simp [hne]
    exact (consistentFor_congr hfil).mpr (hcons c hmem)

/-- `updateSession` does not change the id multiset of the sessions. -/
theorem updateSession_ids (st : AppState) (s : Session) :
    sessionIds (updateSession st s) = sessionIds st := by
  show (st.sessions.map fun x => if x.id = s.id then s else x).map (fun x => x.id)
      = st.sessions.map (fun x => x.id)
  rw [List.map_map]
  exact List.map_congr_left fun x _ => by
    by_cases h : x.id = s.id <;> simp [Function.comp, h]

/-- With unique session ids, `updateSession` keeps every course's
statistics consistent. -/
theorem updateSession_preserves (st : AppState) (s : Session)
    (hids : (sessionIds st).Nodup) (hcons : statsConsistent st) :
    statsConsistent (updateSession st s) := by
  intro c hc
  rcases hfind : st.sessions.find? (fun x => x.id = s.id) with _ | old
  · -- no session carries `s.id`: the map is the identity
    have hng : ∀ x ∈ st.sessions, ¬ x.id = s.id := by
      intro x hx
      simpa using List.find?_eq_none.mp hfind x hx
    have hmap : (st.sessions.map fun x => if x.id = s.id then s else x) = st.sessions := by
      have h1 : (st.sessions.map fun x => if x.id = s.id then s else x)
          = st.sessions.map (fun x => x) :=
        List.map_congr_left fun x hx => if_neg (hng x hx)
      simpa using h1
    simp only [updateSession, hfind] at hc ⊢
    rw [hmap] at hc ⊢
    rcases mem_recalc_cases hc with ⟨_, hcf⟩ | ⟨_, hmem⟩
    · exact hcf
    · exact hcons c hmem
  · by_cases hne : old.courseId ≠ s.courseId
    · simp only [updateSession, hfind] at hc ⊢
      rw [if_pos hne] at hc
      rcases mem_recalc_cases hc with ⟨_, hcf⟩ | ⟨hidOld, hc1⟩
      · exact hcf
      · rcases mem_recalc_cases hc1 with ⟨_, hcf⟩ | ⟨hidNew, hmem⟩
        · exact hcf
        · have hfr := update_filter_frame hids hfind
            (fun h => hidOld h.symm) (fun h => hidNew h.symm)
          exact (consistentFor_congr hfr).mpr (hcons c hmem)
    · push_neg at hne
      simp only [updateSession, hfind] at hc ⊢
      rw [if_neg (not_not_intro hne)] at hc
      rcases mem_recalc_cases hc with ⟨_, hcf⟩ | ⟨hidNew, hmem⟩
      · exact hcf
      · have hfr := update_filter_frame hids hfind
          (fun h => hidNew (hne ▸ h).symm) (fun h => hidNew h.symm)
        exact (consistentFor_congr hfr).mpr (hcons c hmem)

/-- With unique session ids, `deleteSession` keeps every course's
statistics consistent. -/
theorem deleteSession_preserves (st : AppState) (sid : String)
    (hids : (sessionIds st).Nodup) (hcons : statsConsistent st) :
    statsConsistent (deleteSession st sid) := by
  intro c hc
  rcases hfind : st.sessions.find? (fun x => x.id = sid) with _ | victim
  · have hall : st.sessions.filter (fun x => x.id ≠ sid) = st.sessions := by
      rw [List.filter_eq_self]
      intro a ha
      simpa using List.find?_eq_none.mp hfind a ha
    simp only [deleteSession, hfind] at hc ⊢
    rw [hall]
    exact hcons c hc
  · simp only [deleteSession, hfind] at hc ⊢
    rcases mem_recalc_cases hc with ⟨_, hcf⟩ | ⟨hid, hmem⟩
    · exact hcf
    · have hfr := delete_filter_frame hids hfind (fun h => hid h.symm)
      exact (consistentFor_congr hfr).mpr (hcons c hmem)

/-- A fresh id keeps the session ids unique through `addSession`. -/
theorem addSession_ids_nodup (st : AppState) (s : Session)
    (hids : (sessionIds st).Nodup) (hfresh : s.id ∉ sessionIds st) :
    (sessionIds (addSession st s)).Nodup := by
  have heq : sessionIds (addSession st s) = sessionIds st ++ [s.id] := by
    simp [addSession, sessionIds]
  rw [heq, List.nodup_append]
  refine ⟨hids, List.nodup_singleton _, ?_⟩
  intro a ha hb
  rw [List.mem_singleton] at hb
  exact hfresh (hb ▸ ha)

/-- `deleteSession` keeps the session ids unique. -/
theorem deleteSession_ids_nodup (st : AppState) (sid : String)
    (hids : (sessionIds st).Nodup) : (sessionIds (deleteSession st sid)).Nodup := by
  have hsub : List.Sublist (sessionIds (deleteSession st sid)) (sessionIds st) := by
    show List.Sublist ((st.sessions.filter fun x => x.id ≠ sid).map (fun x => x.id))
        (st.sessions.map (fun x => x.id))
    exact (List.filter_sublist st.sessions).map (fun x => x.id)
  exact hids.sublist hsub

/-- One valid operation preserves unique ids and consistent statistics. -/
theorem applyOp_preserves (st : AppState) (op : SessionOp)
    (hids : (sessionIds st).Nodup) (hcons : statsConsistent st)
    (hv : opValid st op) :
    (sessionIds (applyOp st op)).Nodup ∧ statsConsistent (applyOp st op) := by
  cases op with
  | add s => exact ⟨addSession_ids_nodup st s hids hv, addSession_preserves st s hcons⟩
  | update s =>
      refine ⟨?_, updateSession_preserves st s hids hcons⟩
      rw [show applyOp st (SessionOp.update s) = updateSession st s from rfl,
        updateSession_ids]
      exact hids
  | del sid => exact ⟨deleteSession_ids_nodup st sid hids, deleteSession_preserves st sid hids hcons⟩

/-- C1 (amended): starting from a state with consistent course statistics
*and pairwise-distinct session ids*, any sequence of session
add/update/delete operations in which every added session carries a fresh
id keeps, after each operation, every course's `sessionCount` equal to the
number of sessions referencing it and its `totalHours` equal to the
2-decimal rounding of their summed durations (missing or non-numeric
durations counting as 0). -/
theorem stats_invariant_preserved (st : AppState) (ops : List SessionOp)
    (hids : (sessionIds st).Nodup) (hcons : statsConsistent st)
    (hvalid : validSeq st ops) : consistentAfterEach st ops := by
  induction ops generalizing st with
  | nil => trivial
  | cons op rest ih =>
      obtain ⟨hop, hrest⟩ := hvalid
      obtain ⟨hids', hcons'⟩ := applyOp_preserves st op hids hcons hop
      exact ⟨hcons', ih _ hids' hcons' hrest⟩

/-- Counterexample to C1 as stated: with duplicate session ids the claim
fails.  The state below has consistent statistics, yet deleting session id
`s` removes both sessions while recomputing only the first one's course, so
course `c2` is left claiming a session that no longer exists. -/
theorem stats_invariant_fails_with_duplicate_ids :
    statsConsistent
      ⟨[], [], [⟨"c1", "C1", 1, 1⟩, ⟨"c2", "C2", 1, 2⟩],
        [⟨"s", "c1", some 1, some 1⟩, ⟨"s", "c2", some 2, some 1⟩]⟩ ∧
    ¬ consistentAfterEach
        ⟨[], [], [⟨"c1", "C1", 1, 1⟩, ⟨"c2", "C2", 1, 2⟩],
          [⟨"s", "c1", some 1, some 1⟩, ⟨"s", "c2", some 2, some 1⟩]⟩
        [SessionOp.del "s"] := by
  constructor
  · decide
  · decide

/-- Witness for C1: the spec's own scenario — two sessions of 1.5 and 2.333
hours added to a fresh course; the statistics are consistent after each
step (ending at `sessionCount = 2`, `totalHours = 3.83`). -/
theorem stats_invariant_preserved_witness :
    (sessionIds ⟨[], [], [⟨"c1", "Algebra", 0, 0⟩], []⟩).Nodup ∧
    statsConsistent ⟨[], [], [⟨"c1", "Algebra", 0, 0⟩], []⟩ ∧
    validSeq ⟨[], [], [⟨"c1", "Algebra", 0, 0⟩], []⟩
      [SessionOp.add ⟨"s1", "c1", some (3/2), some 1⟩,
       SessionOp.add ⟨"s2", "c1", some (2333/1000), some 2⟩] ∧
    consistentAfterEach ⟨[], [], [⟨"c1", "Algebra", 0, 0⟩], []⟩
      [SessionOp.add ⟨"s1", "c1", some (3/2), some 1⟩,
       SessionOp.add ⟨"s2", "c1", some (2333/1000), some 2⟩] :=
  ⟨by decide, by decide, by decide,
   stats_invariant_preserved _ _ (by decide) (by decide) (by decide)⟩

/-- C3: when `updateSession` is given a session whose stored predecessor
referenced a different course, both the new course and the previous course
end with statistics recomputed from the post-update session collection. -/
theorem updateSession_recomputes_both_courses (st : AppState) (s old : Session)
    (hfind : st.sessions.find? (fun x => x.id = s.id) = some old)
    (hne : old.courseId ≠ s.courseId) :
    ∀ c ∈ (updateSession st s).courses,
      c.id = s.courseId ∨ c.id = old.courseId →
        consistentFor c (updateSession st s).sessions := by
  intro c hc hor
  simp only [updateSession, hfind] at hc ⊢
  rw [if_pos hne] at hc
  rcases mem_recalc_cases hc with ⟨_, hcf⟩ | ⟨hidOld, hc1⟩
  · exact hcf
  · rcases mem_recalc_cases hc1 with ⟨_, hcf⟩ | ⟨hidNew, _⟩
    · exact hcf
    · rcases hor with h | h
      · exact absurd h hidNew
      · exact absurd h hidOld

/-- Witness for C3: session `x` moves from course `A` to course `B`; the
updated course-`B` record is consistent with the new session collection. -/
theorem updateSession_recomputes_both_courses_witness :
    consistentFor ⟨"B", "B", 1, 5⟩
      (updateSession
        ⟨[], [], [⟨"A", "A", 1, 5⟩, ⟨"B", "B", 0, 0⟩], [⟨"x", "A", some 5, some 1⟩]⟩
        ⟨"x", "B", some 5, some 1⟩).sessions :=
  updateSession_recomputes_both_courses
    ⟨[], [], [⟨"A", "A", 1, 5⟩, ⟨"B", "B", 0, 0⟩], [⟨"x", "A", some 5, some 1⟩]⟩
    ⟨"x", "B", some 5, some 1⟩ ⟨"x", "A", some 5, some 1⟩ (by decide) (by decide)
    ⟨"B", "B", 1, 5⟩ (by decide) (Or.inl rfl)

/-- C4: importing one person subtype never touches the other subtype's
local collection, and the replace-mode remote delete against the shared
people table is scoped by person type — no whole-table delete is ever
issued for a person import. -/
theorem import_person_type_scope (data : List RawRecord) (genIds : Nat → String)
    (mode : ImportMode) (st : IState) (env : RemoteEnv) :
    (importData .teachers mode data genIds st env).1.assistants = st.assistants ∧
    (importData .assistants mode data genIds st env).1.teachers = st.teachers ∧
    (∀ t, RemoteOp.deleteAllRows t ∉ (importData .teachers mode data genIds st env).2.1) ∧
    (∀ t, RemoteOp.deleteAllRows t ∉ (importData .assistants mode data genIds st env).2.1) ∧
    (mode = .replace →
      (importData .teachers mode data genIds st env).2.1.head?
          = some (RemoteOp.deletePeopleByType "Teacher") ∧
      (importData .assistants mode data genIds st env).2.1.head?
          = some (RemoteOp.deletePeopleByType "TA")) := by
  obtain ⟨d, i⟩ := env
  cases mode <;> cases d <;> cases i <;>
    simp [importData, importApply, tableName]

/-- C5 (amended): the local state an import produces is exactly the
locally-applied state, independent of every remote outcome (no rollback),
and the catch schedules a deferred alert exactly when the insert fails
(error result or rejection) or a replace-mode delete *rejects*; a
replace-mode delete that merely resolves with an error result is discarded
unchecked, so it produces no notification. -/
theorem import_no_local_rollback (kind : ImportKind) (mode : ImportMode)
    (data : List RawRecord) (genIds : Nat → String) (st : IState) (env : RemoteEnv) :
    (importData kind mode data genIds st env).1
        = importApply kind mode (processData kind genIds 0 data) st ∧
    (importData kind mode data genIds st env).1
        = (importData kind mode data genIds st ⟨.ok, .ok⟩).1 ∧
    ((importData kind mode data genIds st env).2.2 = none ↔
      env.insertOutcome = .ok ∧
        (mode = .replace → ∀ m, env.deleteOutcome ≠ .reject m)) := by
  obtain ⟨d, i⟩ := env
  cases mode <;> cases d <;> cases i <;> simp [importData]

/-- Counterexample to C5 as stated: a replace-mode delete that fails by
resolving with an error result is a failing remote step, yet the import
schedules no notification at all (its result is discarded unchecked). -/
theorem import_delete_error_result_unreported :
    CallOutcome.failed (CallOutcome.errResult "permission denied") = true ∧
    (importData .teachers .replace
        [⟨none, "Ann", "", JVal.absent, JVal.absent, NVal.absent, NVal.absent,
          NVal.absent, NVal.absent⟩]
        (fun _ => "gen-1") ⟨[], [], [], []⟩
        ⟨CallOutcome.errResult "permission denied", CallOutcome.ok⟩).2.2 = none := by
  exact ⟨rfl, rfl⟩

/-- `processData` normalizes the record at each index with that index's
generated id. -/
theorem processData_get? (kind : ImportKind) (genIds : Nat → String) :
    ∀ (k i : Nat) (data : List RawRecord) (r : RawRecord),
      data.get? i = some r →
      (processData kind genIds k data).get? i
          = some (normalizeRecord kind (genIds (k + i)) r) := by
  intro k i data
  induction data generalizing k i with
  | nil => intro r h; simp at h
  | cons x xs ih =>
      intro r h
      cases i with
      | zero => simp_all [processData]
      | succ n =>
          simp only [List.get?_cons_succ] at h
          have := ih (k + 1) n r h
          simpa [processData, Nat.add_assoc, Nat.add_comm 1 n] using this

/-- C7: a sessions import stores each input record normalized in place
(replace overwrites, append concatenates); a session record missing
`sequence` and `durationHours` is stored with both equal to the number 0;
and a person import strips every course/session schema field
(`teacherIds`, `assistantIds`, `sessionCount`, `totalHours`, `sequence`,
`durationHours`) from the stored record. -/
theorem import_normalization_spec (kind : ImportKind) (genIds : Nat → String)
    (data : List RawRecord) (st : IState) (env : RemoteEnv) :
    (∀ i r, data.get? i = some r →
      (processData kind genIds 0 data).get? i
          = some (normalizeRecord kind (genIds i) r)) ∧
    ((importData .sessions .replace data genIds st env).1.sessions
        = processData .sessions genIds 0 data) ∧
    ((importData .sessions .append data genIds st env).1.sessions
        = st.sessions ++ processData .sessions genIds 0 data) ∧
    ((importData .teachers .replace data genIds st env).1.teachers
        = processData .teachers genIds 0 data) ∧
    ((importData .teachers .append data genIds st env).1.teachers
        = st.teachers ++ processData .teachers genIds 0 data) ∧
    (∀ gid r, r.sequence = NVal.absent → r.durationHours = NVal.absent →
      (normalizeRecord .sessions gid r).sequence = NVal.num 0 ∧
      (normalizeRecord .sessions gid r).durationHours = NVal.num 0) ∧
    (∀ gid r,
      (normalizeRecord .teachers gid r).teacherIds = JVal.absent ∧
      (normalizeRecord .teachers gid r).assistantIds = JVal.absent ∧
      (normalizeRecord .teachers gid r).sessionCount = NVal.absent ∧
      (normalizeRecord .teachers gid r).totalHours = NVal.absent ∧
      (normalizeRecord .teachers gid r).sequence = NVal.absent ∧
      (normalizeRecord .teachers gid r).durationHours = NVal.absent ∧
      (normalizeRecord .assistants gid r).teacherIds = JVal.absent ∧
      (normalizeRecord .assistants gid r).assistantIds = JVal.absent ∧
      (normalizeRecord .assistants gid r).sessionCount = NVal.absent ∧
      (normalizeRecord .assistants gid r).totalHours = NVal.absent ∧
      (normalizeRecord .assistants gid r).sequence = NVal.absent ∧
      (normalizeRecord .assistants gid r).durationHours = NVal.absent) := by
  obtain ⟨d, i⟩ := env
  refine ⟨?_, ?_, ?_, ?_, ?_, ?_, ?_⟩
  · intro j r h
    simpa using processData_get? kind genIds 0 j data r h
  · cases d <;> cases i <;> simp [importData, importApply]
  · cases d <;> cases i <;> simp [importData, importApply]
  · cases d <;> cases i <;> simp [importData, importApply]
  · cases d <;> cases i <;> simp [importData, importApply]
  · intro gid r h1 h2
    constructor <;> simp [normalizeRecord, numericize, h1, h2]
  · intro gid r
    refine ⟨?_, ?_, ?_, ?_, ?_, ?_, ?_, ?_, ?_, ?_, ?_, ?_⟩ <;> rfl

/-- Counterexample to C8 as stated: a *present* scalar `teacherIds` that is
the empty string is falsy, so it is stored as the empty sequence, not as a
one-element sequence holding it. -/
theorem import_ids_scalar_falsy_cex :
    (normalizeRecord .courses "gen-1"
        ⟨some "c9", "Course", "", JVal.str "", JVal.absent, NVal.absent, NVal.absent,
          NVal.absent, NVal.absent⟩).teacherIds = JVal.arr [] ∧
    JVal.arr ([] : List String) ≠ JVal.arr [""] := by
  exact ⟨rfl, by decide⟩

/-- C8 (amended): for a courses or sessions import the stored `teacherIds`
(and likewise `assistantIds`) is the input when the input is already a
sequence, the one-element sequence of a *truthy* (non-empty) scalar, and the
empty sequence when the field is absent or a falsy (empty-string) scalar. -/
theorem import_ids_coercion (kind : ImportKind) (gid : String) (r : RawRecord)
    (hk : kind = .courses ∨ kind = .sessions) :
    (∀ l, r.teacherIds = JVal.arr l →
      (normalizeRecord kind gid r).teacherIds = JVal.arr l) ∧
    (∀ s, r.teacherIds = JVal.str s → s.isEmpty = false →
      (normalizeRecord kind gid r).teacherIds = JVal.arr [s]) ∧
    (∀ s, r.teacherIds = JVal.str s → s.isEmpty = true →
      (normalizeRecord kind gid r).teacherIds = JVal.arr []) ∧
    (r.teacherIds = JVal.absent → (normalizeRecord kind gid r).teacherIds = JVal.arr []) ∧
    (∀ l, r.assistantIds = JVal.arr l →
      (normalizeRecord kind gid r).assistantIds = JVal.arr l) ∧
    (∀ s, r.assistantIds = JVal.str s → s.isEmpty = false →
      (normalizeRecord kind gid r).assistantIds = JVal.arr [s]) ∧
    (∀ s, r.assistantIds = JVal.str s → s.isEmpty = true →
      (normalizeRecord kind gid r).assistantIds = JVal.arr []) ∧
    (r.assistantIds = JVal.absent →
      (normalizeRecord kind gid r).assistantIds = JVal.arr []) := by
  rcases hk with rfl | rfl <;>
    refine ⟨?_, ?_, ?_, ?_, ?_, ?_, ?_, ?_⟩ <;>
    intros <;> simp_all [normalizeRecord, coerceIds]

/-- Witness for C8: a courses import keeps an array `teacherIds` and wraps a
truthy scalar `assistantIds`. -/
theorem import_ids_coercion_witness :
    (normalizeRecord .courses "g"
        ⟨some "c1", "C", "", JVal.arr ["t1", "t2"], JVal.str "a1", NVal.absent,
          NVal.absent, NVal.absent, NVal.absent⟩).teacherIds = JVal.arr ["t1", "t2"] ∧
    (normalizeRecord .courses "g"
        ⟨some "c1", "C", "", JVal.arr ["t1", "t2"], JVal.str "a1", NVal.absent,
          NVal.absent, NVal.absent, NVal.absent⟩).assistantIds = JVal.arr ["a1"] :=
  have h := import_ids_coercion .courses "g"
      ⟨some "c1", "C", "", JVal.arr ["t1", "t2"], JVal.str "a1", NVal.absent,
        NVal.absent, NVal.absent, NVal.absent⟩ (Or.inl rfl)
  ⟨h.1 ["t1", "t2"] rfl, h.2.2.2.2.2.1 "a1" rfl rfl⟩

/-- C6: the initial load publishes the partitioned people and the
recomputed courses from whatever reads succeeded; a failed read degrades to
the empty collection and emits a warning without blocking the others; the
loading flag is set true first and false last, also on the fully-thrown
path. -/
theorem fetchData_loader_spec (pr : Option (List Person)) (cr : Option (List Course))
    (sr : Option (List Session)) :
    (fetchData (some (pr, cr, sr))).head? = some (LoadEvent.setLoading true) ∧
    (fetchData (some (pr, cr, sr))).getLast? = some (LoadEvent.setLoading false) ∧
    LoadEvent.publish ((pr.getD []).filter (fun p => p.ptype = "Teacher"))
        ((pr.getD []).filter (fun p => p.ptype = "TA"))
        (loadCourses (cr.getD []) (sr.getD [])) (sr.getD [])
      ∈ fetchData (some (pr, cr, sr)) ∧
    (LoadEvent.warn "people" ∈ fetchData (some (pr, cr, sr)) ↔ pr = none) ∧
    (LoadEvent.warn "courses" ∈ fetchData (some (pr, cr, sr)) ↔ cr = none) ∧
    (LoadEvent.warn "sessions" ∈ fetchData (some (pr, cr, sr)) ↔ sr = none) ∧
    fetchData none
        = [LoadEvent.setLoading true, LoadEvent.logError, LoadEvent.setLoading false] := by
  cases pr <;> cases cr <;> cases sr <;>
    simp [fetchData]

end CourseSys
